import Mathlib

/-
  Verification development for `src/web_scraper.py`.

  The repository is a linear scraping pipeline.  This file gives a shallow
  embedding of its data model and operations:

  * `Json` / `JArr` / `JObj` model Python JSON values and dicts (an assoc
    structure with Python dict semantics: `JObj.get` is `dict.get`,
    `JObj.insert` is item assignment, which replaces the value of an
    existing key in place).
  * `jsonLoads` models `json.loads` on the inputs this program can meet:
    strict JSON with integer numbers.  Float literals, `NaN`/`Infinity`
    and surrogate-pair `\uXXXX` escapes are outside the model (floating
    point and non-scalar code units are not representable here).
  * `braceSpan` models `re.search(r'{.*}', s, re.DOTALL)`: the match, when
    it exists, runs from the first `'{'` to the last `'}'` of the text.
  * `scrape_article` models `ArticleScraper.scrape_article` applied to an
    already fetched and parsed page: a `Page` carries the text of the
    `<script id='tawsiyat-metadata'>` element (if present) and the texts
    of the `<p>` elements in document order.  A `none` result models the
    method raising an exception (the only way record construction itself
    can raise: `metadata.get('keywords','').split(',')` on a non-string).
  * `matchSitemap` models `re.search(r'sitemap-(\d{4})-(\d{1,2})\.xml', url)`
    (with ASCII digits; the claims only involve ASCII URLs).
  * `processMonth` / `driverMonth` / `mainDriver` model the per-month loop
    of `main`: the `i > 10` cap, the per-URL try/except, and the
    `FileUtility.save_to_json` call.  Network fetching is modelled by a
    `Web` environment; a `none` page models `requests.get` raising, and a
    `none` result of `driverMonth` models a sitemap URL that was skipped
    (no fetch, no output file).
  * `renderV` is a canonical JSON serializer used to state the round-trip
    claim: a page "embedding exactly M as JSON" carries `renderV (.obj M)`
    as its script text.
-/

set_option maxHeartbeats 1000000

/-! ### JSON values and Python dicts -/

mutual
inductive Json where
  | null : Json
  | bool : Bool → Json
  | num : Int → Json
  | str : String → Json
  | arr : JArr → Json
  | obj : JObj → Json
inductive JArr where
  | nil : JArr
  | cons : Json → JArr → JArr
inductive JObj where
  | nil : JObj
  | cons : String → Json → JObj → JObj
end

/-- Python `dict.get k` (returns `None` when the key is absent).  Keys in a
`JObj` built by the JSON parser are unique, so first-match lookup agrees
with Python dict lookup. -/
def JObj.get : JObj → String → Option Json
  | .nil, _ => none
  | .cons k' v t, k => if k' = k then some v else t.get k

/-- Python `dict.get k default`. -/
def JObj.getD (m : JObj) (k : String) (d : Json) : Json := (m.get k).getD d

/-- Python dict item assignment `m[k] = v`: replaces the value of an existing
key in place, otherwise appends the new pair. -/
def JObj.insert : JObj → String → Json → JObj
  | .nil, k, v => .cons k v .nil
  | .cons k' v' t, k, v => if k' = k then .cons k' v t else .cons k' v' (t.insert k v)

def JObj.append : JObj → JObj → JObj
  | .nil, m => m
  | .cons k v t, m => .cons k v (t.append m)

def JObj.keys : JObj → List String
  | .nil => []
  | .cons k _ t => k :: t.keys

/-! ### The Article record and pages (`src/web_scraper.py` lines 12-29, 53-63) -/

/-- The `Article` dataclass.  Python is dynamically typed: each field holds
whatever `metadata.get(...)` returned, i.e. an optional JSON value, except
the three fields built with an explicit default (`keywords`, `classes`,
`html`). -/
structure Article where
  type : Option Json
  postid : Option Json
  title : Option Json
  url : Option Json
  keywords : List String
  thumbnail : Option Json
  video_duration : Option Json
  word_count : Option Json
  lang : Option Json
  published_time : Option Json
  last_updated : Option Json
  description : Option Json
  author : Option Json
  classes : Json
  html : Json
  lite_url : Option Json

/-- An already fetched and parsed article page, as `scrape_article` sees it:
the text of the unique `<script id='tawsiyat-metadata'>` element if the page
has one, and the `<p>` element texts in document order. -/
structure Page where
  script : Option (List Char)
  paragraphs : List String

/-- Python `str.split(',')` (single-character separator): splits at every
comma; the empty string yields `[""]`. -/
def splitCommaAux : List Char → List Char → List String
  | [], acc => [String.mk acc.reverse]
  | c :: r, acc =>
    if c = ',' then String.mk acc.reverse :: splitCommaAux r []
    else splitCommaAux r (c :: acc)

def pySplitComma (s : String) : List String := splitCommaAux s.data []

/-! ### Model of `json.loads` (strict mode, integer numbers) -/

/-- JSON whitespace accepted between tokens. -/
def isWs (c : Char) : Bool := c = ' ' || c = '\t' || c = '\n' || c = '\r'

def skipWs (cs : List Char) : List Char := cs.dropWhile isWs

/-- ASCII decimal digit (`\d` in the source's patterns; the claims only
involve ASCII inputs). -/
def isDig (c : Char) : Bool := 48 ≤ c.toNat && c.toNat ≤ 57

def hexVal? (c : Char) : Option Nat :=
  if 48 ≤ c.toNat ∧ c.toNat ≤ 57 then some (c.toNat - 48)
  else if 97 ≤ c.toNat ∧ c.toNat ≤ 102 then some (c.toNat - 97 + 10)
  else if 65 ≤ c.toNat ∧ c.toNat ≤ 70 then some (c.toNat - 65 + 10)
  else none

/-- JSON string body parser (after the opening quote), strict mode: raw
control characters are rejected, the standard escapes and `\uXXXX` (scalar
values only) are decoded. -/
def parseStrAux : List Char → List Char → Option (String × List Char)
  | [], _ => none
  | c :: rest, acc =>
    if c = '"' then some (String.mk acc.reverse, rest)
    else if c = '\\' then
      match rest with
      | [] => none
      | e :: r =>
        if e = '"' then parseStrAux r ('"' :: acc)
        else if e = '\\' then parseStrAux r ('\\' :: acc)
        else if e = '/' then parseStrAux r ('/' :: acc)
        else if e = 'b' then parseStrAux r ('\x08' :: acc)
        else if e = 'f' then parseStrAux r ('\x0c' :: acc)
        else if e = 'n' then parseStrAux r ('\n' :: acc)
        else if e = 'r' then parseStrAux r ('\r' :: acc)
        else if e = 't' then parseStrAux r ('\t' :: acc)
        else if e = 'u' then
          match r with
          | h1 :: h2 :: h3 :: h4 :: r' =>
            match hexVal? h1, hexVal? h2, hexVal? h3, hexVal? h4 with
            | some a, some b, some c', some d =>
              let n := ((a * 16 + b) * 16 + c') * 16 + d
              if n < 55296 ∨ 57344 ≤ n then parseStrAux r' (Char.ofNat n :: acc)
              else none
            | _, _, _, _ => none
          | _ => none
        else none
    else if c.toNat < 32 then none
    else parseStrAux rest (c :: acc)

/-- Maximal digit prefix. -/
def takeDigits : List Char → List Char × List Char
  | [] => ([], [])
  | c :: rest =>
    if isDig c then
      let (d, r) := takeDigits rest
      (c :: d, r)
    else ([], c :: rest)

def digitsVal : List Char → Nat → Nat
  | [], acc => acc
  | c :: r, acc => digitsVal r (acc * 10 + (c.toNat - 48))

/-- The integer part of Python's number regex `(-?(?:0|[1-9]\d*))`: a
leading `'0'` matches alone, otherwise the maximal digit run. -/
def parseIntPart : List Char → Option (List Char × List Char)
  | [] => none
  | c :: rest =>
    if c = '0' then some (['0'], rest)
    else if isDig c then
      let (d, r) := takeDigits rest
      some (c :: d, r)
    else none

def expCont : List Char → Bool
  | [] => false
  | c :: r =>
    if c = '+' ∨ c = '-' then
      match r with
      | [] => false
      | d :: _ => isDig d
    else isDig c

/-- Whether the characters after the integer part continue into a float
literal `(\.\d+)?([eE][-+]?\d+)?`.  Python would produce a float there;
floats are outside this model, so the parser rejects such inputs. -/
def isFloatCont : List Char → Bool
  | [] => false
  | c :: r =>
    if c = '.' then
      match r with
      | [] => false
      | d :: _ => isDig d
    else if c = 'e' ∨ c = 'E' then expCont r
    else false

def parseNum (cs : List Char) : Option (Json × List Char) :=
  match cs with
  | [] => none
  | c :: cs' =>
    if c = '-' then
      match parseIntPart cs' with
      | none => none
      | some (ds, r) =>
        if isFloatCont r then none
        else some (.num (-((digitsVal ds 0 : Nat) : Int)), r)
    else
      match parseIntPart (c :: cs') with
      | none => none
      | some (ds, r) =>
        if isFloatCont r then none
        else some (.num ((digitsVal ds 0 : Nat) : Int), r)

def parseNullLit : List Char → Option (Json × List Char)
  | c1 :: c2 :: c3 :: r => if c1 = 'u' ∧ c2 = 'l' ∧ c3 = 'l' then some (.null, r) else none
  | _ => none

def parseTrueLit : List Char → Option (Json × List Char)
  | c1 :: c2 :: c3 :: r => if c1 = 'r' ∧ c2 = 'u' ∧ c3 = 'e' then some (.bool true, r) else none
  | _ => none

def parseFalseLit : List Char → Option (Json × List Char)
  | c1 :: c2 :: c3 :: c4 :: r =>
    if c1 = 'a' ∧ c2 = 'l' ∧ c3 = 's' ∧ c4 = 'e' then some (.bool false, r) else none
  | _ => none

def parseStrRes (r : List Char) : Option (Json × List Char) :=
  match parseStrAux r [] with
  | some (s, r') => some (.str s, r')
  | none => none

mutual
/-- JSON value parser.  All parser functions are fuel-indexed so the mutual
recursion is structural; `jsonLoads` supplies fuel that is provably enough
for any serialized value (four steps per character bound the call chain
value → dispatch → bracket body → item loop). -/
def parseVal : Nat → List Char → Option (Json × List Char)
  | 0, _ => none
  | f + 1, cs => parseValCore f (skipWs cs)

/-- Dispatch on the first non-whitespace character, as Python's scanner
does: literal keywords, string, array, object, else the number regex. -/
def parseValCore : Nat → List Char → Option (Json × List Char)
  | 0, _ => none
  | _ + 1, [] => none
  | f + 1, c :: r =>
    if c = 'n' then parseNullLit r
    else if c = 't' then parseTrueLit r
    else if c = 'f' then parseFalseLit r
    else if c = '"' then parseStrRes r
    else if c = '[' then parseArrBody f (skipWs r)
    else if c = '{' then parseObjBody f (skipWs r)
    else parseNum (c :: r)

/-- After `'['` (whitespace skipped): empty array or the item loop. -/
def parseArrBody : Nat → List Char → Option (Json × List Char)
  | 0, _ => none
  | _ + 1, [] => none
  | f + 1, d :: r =>
    if d = ']' then some (.arr .nil, r)
    else
      match parseArrItems f (d :: r) with
      | some (xs, r') => some (.arr xs, r')
      | none => none

/-- Nonempty array item loop: value, then `','` and more items or `']'`. -/
def parseArrItems : Nat → List Char → Option (JArr × List Char)
  | 0, _ => none
  | f + 1, cs =>
    match parseVal f cs with
    | none => none
    | some (v, r) =>
      match skipWs r with
      | [] => none
      | d :: r' =>
        if d = ']' then some (.cons v .nil, r')
        else if d = ',' then
          match parseArrItems f r' with
          | some (xs, r'') => some (.cons v xs, r'')
          | none => none
        else none

/-- After `'{'` (whitespace skipped): empty object or the member loop. -/
def parseObjBody : Nat → List Char → Option (Json × List Char)
  | 0, _ => none
  | _ + 1, [] => none
  | f + 1, d :: r =>
    if d = '}' then some (.obj .nil, r)
    else
      match parseObjItems f JObj.nil (d :: r) with
      | some (m, r') => some (.obj m, r')
      | none => none

/-- Nonempty object member loop; the accumulator is the Python dict being
built up by item assignment, one `"key": value` pair at a time. -/
def parseObjItems : Nat → JObj → List Char → Option (JObj × List Char)
  | 0, _, _ => none
  | _ + 1, _, [] => none
  | f + 1, acc, c :: r =>
    if c = '"' then
      match parseStrAux r [] with
      | none => none
      | some (k, r1) =>
        match skipWs r1 with
        | [] => none
        | d :: r2 =>
          if d = ':' then
            match parseVal f r2 with
            | none => none
            | some (v, r3) =>
              match skipWs r3 with
              | [] => none
              | e :: r4 =>
                if e = '}' then some (acc.insert k v, r4)
                else if e = ',' then parseObjItems f (acc.insert k v) (skipWs r4)
                else none
          else none
    else none
end

/-- Model of `json.loads`: parse one JSON document, allowing surrounding
whitespace, rejecting trailing data.  `none` models `json.JSONDecodeError`. -/
def jsonLoads (cs : List Char) : Option Json :=
  match parseVal (4 * cs.length + 4) cs with
  | none => none
  | some (j, r) => if skipWs r = [] then some j else none

/-! ### `ArticleScraper` (`src/web_scraper.py` lines 49-92) -/

/-- Model of `re.search(r'{.*}', script_content, re.DOTALL)`: when the text
has a `'{'` followed (strictly) later by a `'}'`, the leftmost-greedy match
runs from the first `'{'` to the last `'}'`. -/
def braceSpan (cs : List Char) : Option (List Char) :=
  match ((cs.dropWhile (fun c => c ≠ '{')).reverse.dropWhile (fun c => c ≠ '}')).reverse with
  | [] => none
  | c :: r => some (c :: r)

/-- `ArticleScraper.extract_metadata` (lines 86-92): extract the brace span
and `json.loads` it; no span yields `{}`, and `json.JSONDecodeError` is
caught and degrades to `{}`.  A span always starts with `'{'`, so a
successful parse is always an object. -/
def extract_metadata (script_content : List Char) : JObj :=
  match braceSpan script_content with
  | none => JObj.nil
  | some span =>
    match jsonLoads span with
    | some (Json.obj m) => m
    | _ => JObj.nil

/-- Line 59: `metadata = self.extract_metadata(script_tag.text) if script_tag else {}`. -/
def metadataOfScript : Option (List Char) → JObj
  | some s => extract_metadata s
  | none => JObj.nil

/-- Line 63: `content = '\n'.join([p.get_text() for p in paragraphs])`. -/
def contentOf (paragraphs : List String) : String := String.intercalate "\n" paragraphs

/-- `ArticleScraper.scrape_article` (lines 53-84) on an already fetched
page.  The joined paragraph text is computed (line 63) but never stored in
the record, exactly as in the source.  `none` models the `AttributeError`
raised by `metadata.get('keywords','').split(',')` when the `keywords`
metadata value is not a string. -/
def scrape_article (page : Page) : Option Article :=
  let metadata := metadataOfScript page.script
  let _content := contentOf page.paragraphs
  match metadata.getD "keywords" (Json.str "") with
  | Json.str kw =>
    some
      { type := metadata.get "type"
        postid := metadata.get "postid"
        title := metadata.get "title"
        url := metadata.get "url"
        keywords := pySplitComma kw
        thumbnail := metadata.get "thumbnail"
        video_duration := metadata.get "video_duration"
        word_count := metadata.get "word_count"
        lang := metadata.get "lang"
        published_time := metadata.get "published_time"
        last_updated := metadata.get "last_updated"
        description := metadata.get "description"
        author := metadata.get "author"
        classes := metadata.getD "classes" (Json.arr JArr.nil)
        html := metadata.getD "html" (Json.str "")
        lite_url := metadata.get "lite_url" }
  | _ => none

/-- The record produced from an empty metadata mapping. -/
def nullArticle : Article :=
  { type := none, postid := none, title := none, url := none,
    keywords := [""], thumbnail := none, video_duration := none,
    word_count := none, lang := none, published_time := none,
    last_updated := none, description := none, author := none,
    classes := Json.arr JArr.nil, html := Json.str "", lite_url := none }

/-! ### The driver (`main`, lines 103-135) -/

def hasXmlPrefix : List Char → Bool
  | p1 :: p2 :: p3 :: p4 :: _ => p1 == '.' && p2 == 'x' && p3 == 'm' && p4 == 'l'
  | _ => false

/-- `\d{1,2}\.xml` with a greedy month group: try two digits, backtrack to
one. -/
def matchMonthXml : List Char → Option (List Char)
  | [] => none
  | m1 :: rest =>
    if isDig m1 then
      match rest with
      | [] => none
      | m2 :: rest2 =>
        if isDig m2 then
          if hasXmlPrefix rest2 then some [m1, m2]
          else if hasXmlPrefix rest then some [m1]
          else none
        else if hasXmlPrefix rest then some [m1]
        else none
    else none

/-- One anchored attempt of the pattern `sitemap-(\d{4})-(\d{1,2})\.xml`. -/
def matchSitemapAt (cs : List Char) : Option (String × String) :=
  match cs with
  | c1 :: c2 :: c3 :: c4 :: c5 :: c6 :: c7 :: c8 :: y1 :: y2 :: y3 :: y4 :: d :: rest =>
    if c1 == 's' && c2 == 'i' && c3 == 't' && c4 == 'e' && c5 == 'm' && c6 == 'a' &&
        c7 == 'p' && c8 == '-' && isDig y1 && isDig y2 && isDig y3 && isDig y4 && d == '-' then
      match matchMonthXml rest with
      | some ms => some (String.mk [y1, y2, y3, y4], String.mk ms)
      | none => none
    else none
  | _ => none

/-- Model of `re.search(r'sitemap-(\d{4})-(\d{1,2})\.xml', url)` (line 114):
leftmost match wins. -/
def matchSitemap : List Char → Option (String × String)
  | [] => none
  | c :: rest =>
    match matchSitemapAt (c :: rest) with
    | some r => some r
    | none => matchSitemap rest

/-- The network, as the driver sees it: the article URL list of each
monthly sitemap, and the page behind each article URL.  `none` models
`requests.get` (or the markup parse) raising for that URL. -/
structure Web where
  articleUrls : String → List String
  articlePage : String → Option Page

/-- One iteration body of the article loop: fetch and scrape a URL;
`none` models the exception caught by the driver's `try/except`. -/
def scrapeUrl (w : Web) (url : String) : Option Article :=
  match w.articlePage url with
  | none => none
  | some p => scrape_article p

/-- The article loop of `main` (lines 123-132): counter `i` starts at 0,
the loop breaks once `i > 10`, failures are logged and skipped, `i` is
incremented for every attempted URL. -/
def processMonth (w : Web) : Nat → List String → List Article
  | _, [] => []
  | i, url :: rest =>
    if i > 10 then []
    else
      match scrapeUrl w url with
      | some a => a :: processMonth w (i + 1) rest
      | none => processMonth w (i + 1) rest

/-- `FileUtility.save_to_json`'s file name (line 98). -/
def articlesFilename (year month : String) : String :=
  "articles_" ++ year ++ "_" ++ month ++ ".json"

/-- One iteration of the monthly-sitemap loop (lines 112-135): extract
`(year, month)` from the sitemap URL; on a match, fetch the article URLs,
run the capped article loop and write the month's file (`some (filename,
records)`); on no match, skip the sitemap entirely (`none`: nothing
fetched, no file written). -/
def driverMonth (w : Web) (sitemapUrl : String) : Option (String × List Article) :=
  match matchSitemap sitemapUrl.data with
  | none => none
  | some (y, m) =>
    some (articlesFilename y m, processMonth w 0 (w.articleUrls sitemapUrl))

/-- The whole driver on the list of monthly sitemap URLs: the written
output files in order. -/
def mainDriver (w : Web) (monthly : List String) : List (String × List Article) :=
  monthly.filterMap (driverMonth w)

/-! ### Canonical JSON serializer (used to state the round-trip claim) -/

def digitChar (n : Nat) : Char := Char.ofNat (48 + n)

def hexDigit (n : Nat) : Char :=
  if n < 10 then Char.ofNat (48 + n) else Char.ofNat (97 + n - 10)

def renderNatAux : Nat → Nat → List Char
  | 0, _ => []
  | fuel + 1, n =>
    if n < 10 then [digitChar n]
    else renderNatAux fuel (n / 10) ++ [digitChar (n % 10)]

def renderNat (n : Nat) : List Char := renderNatAux (n + 1) n

def renderInt (n : Int) : List Char :=
  if n < 0 then '-' :: renderNat n.natAbs else renderNat n.toNat

/-- Escape one character for a JSON string literal: quote and backslash get
two-character escapes, control characters get `\u00XX`, everything else is
literal. -/
def escChar (c : Char) : List Char :=
  if c = '"' then ['\\', '"']
  else if c = '\\' then ['\\', '\\']
  else if c.toNat < 32 then ['\\', 'u', '0', '0', hexDigit (c.toNat / 16), hexDigit (c.toNat % 16)]
  else [c]

def escStr : List Char → List Char
  | [] => []
  | c :: cs => escChar c ++ escStr cs

def renderStr (s : String) : List Char := '"' :: escStr s.data ++ ['"']

mutual
/-- Canonical serialization of a JSON value (no inter-token whitespace). -/
def renderV : Json → List Char
  | .null => ['n', 'u', 'l', 'l']
  | .bool b => if b then ['t', 'r', 'u', 'e'] else ['f', 'a', 'l', 's', 'e']
  | .num n => renderInt n
  | .str s => renderStr s
  | .arr xs => '[' :: renderA xs ++ [']']
  | .obj kvs => '{' :: renderO kvs ++ ['}']
def renderA : JArr → List Char
  | .nil => []
  | .cons v .nil => renderV v
  | .cons v (.cons w t) => renderV v ++ ',' :: renderA (JArr.cons w t)
def renderO : JObj → List Char
  | .nil => []
  | .cons k v .nil => renderStr k ++ ':' :: renderV v
  | .cons k v (.cons k2 v2 t) =>
    renderStr k ++ ':' :: renderV v ++ ',' :: renderO (JObj.cons k2 v2 t)
end

/-! ### Well-formed JSON values: every object level has distinct keys,
as any value serialized from a Python dict does. -/

mutual
def wfV : Json → Bool
  | .null => true
  | .bool _ => true
  | .num _ => true
  | .str _ => true
  | .arr xs => wfA xs
  | .obj kvs => wfO kvs
def wfA : JArr → Bool
  | .nil => true
  | .cons v t => wfV v && wfA t
def wfO : JObj → Bool
  | .nil => true
  | .cons k v t => !(JObj.keys t).contains k && wfV v && wfO t
end

/-! ### Fuel measure for the parser -/

mutual
def jsizeV : Json → Nat
  | .null => 2
  | .bool _ => 2
  | .num _ => 2
  | .str _ => 2
  | .arr xs => 3 + jsizeA xs
  | .obj kvs => 3 + jsizeO kvs
def jsizeA : JArr → Nat
  | .nil => 0
  | .cons v t => 1 + jsizeV v + jsizeA t
def jsizeO : JObj → Nat
  | .nil => 0
  | .cons _ v t => 1 + jsizeV v + jsizeO t
end

/-- The characters that can follow a serialized number inside a serialized
JSON document: a separator, a closing bracket, or the end of the input.
Used to state the parse-of-render lemmas. -/
def numStop : Option Char → Bool
  | none => true
  | some c => c = ',' || c = ']' || c = '}'

/-! ### Concrete scenario material for witnesses -/

/-- A network where every fetch fails and every sitemap is empty. -/
def trivialWeb : Web := ⟨fun _ => [], fun _ => none⟩

/-- A page whose metadata script embeds exactly the mapping `m` as JSON and
that has no paragraphs. -/
def pageOf (m : JObj) : Page := ⟨some (renderV (.obj m)), []⟩

/-- A page whose metadata carries only a `postid` string. -/
def postPage (s : String) : Page := pageOf (.cons "postid" (.str s) .nil)

/-- The record scraped from `postPage s`. -/
def postArticle (s : String) : Article := { nullArticle with postid := some (.str s) }

/-- The 15 article URLs of the end-to-end scenario of the spec. -/
def scenarioUrls : List String :=
  ["u0", "u1", "u2", "u3", "u4", "u5", "u6", "u7", "u8", "u9",
   "u10", "u11", "u12", "u13", "u14"]

/-- The scenario network: one month of 15 URLs where the fetches of the
URLs at indices 5 and 9 raise and every other URL yields a distinct page. -/
def scenarioWeb : Web :=
  ⟨fun _ => scenarioUrls,
   fun u => if u = "u5" ∨ u = "u9" then none else some (postPage u)⟩

/-! ### Sanity checks for the parser model (concrete evaluations) -/

example : jsonLoads "null".data = some Json.null := rfl

example : jsonLoads " \x7b \x7d ".data = some (Json.obj .nil) := rfl

example :
    jsonLoads "\x7b\"a\": [1, -20, \"x\"] \x7d".data =
      some (Json.obj (.cons "a"
        (Json.arr (.cons (.num 1) (.cons (.num (-20)) (.cons (.str "x") .nil)))) .nil)) := rfl

example : jsonLoads "\x7b\"a\": 1, \"a\": 2\x7d".data =
    some (Json.obj (.cons "a" (.num 2) .nil)) := rfl

example : jsonLoads "\x7boops\x7d".data = none := rfl

example : jsonLoads "\x7b\"a\": 01\x7d".data = none := rfl

example : jsonLoads "\x7b\"a\": 1.5\x7d".data = none := rfl

example : jsonLoads "\x7b\"a\": \"q\\\"\\u0041\\n\"\x7d".data =
    some (Json.obj (.cons "a" (.str "q\"A\n") .nil)) := rfl

example : jsonLoads "\x7b\"a\": true\x7d extra".data = none := rfl

example : braceSpan "ab\x7bc\x7dd\x7de".data = some "\x7bc\x7dd\x7d".data := rfl

example : braceSpan "abc".data = none := rfl

example : braceSpan "\x7dabc\x7b".data = none := rfl

example : extract_metadata "var x = \x7b\"title\": \"T\"\x7d;".data =
    JObj.cons "title" (.str "T") .nil := rfl

example : matchSitemap "https://x/sitemap-2023-7.xml".data = some ("2023", "7") := rfl

example : matchSitemap "https://x/sitemap-2023-12.xml".data = some ("2023", "12") := rfl

example : matchSitemap "https://x/other.xml".data = none := rfl

example : matchSitemap "https://x/sitemap-20235-7.xml".data = none := rfl

example : renderV (.obj (.cons "a" (.num (-12)) .nil)) = "\x7b\"a\":-12\x7d".data := rfl

example : scrape_article ⟨none, ["p1", "p2"]⟩ = some nullArticle := rfl

/-! ### Helper lemmas -/

theorem processMonth_eq (w : Web) :
    ∀ (urls : List String) (i : Nat), i ≤ 11 →
      processMonth w i urls = (urls.take (11 - i)).filterMap (scrapeUrl w) := by
  intro urls
  induction urls with
  | nil => intro i _; simp [processMonth]
  | cons url rest ih =>
    intro i hi
    by_cases h10 : i > 10
    · have h11 : i = 11 := by omega
      simp [processMonth, h10, h11]
    · have harith : 11 - i = (10 - i) + 1 := by omega
      rw [harith, List.take_succ_cons, List.filterMap_cons]
      simp only [processMonth, if_neg h10]
      have ih' := ih (i + 1) (by omega)
      have harith2 : 11 - (i + 1) = 10 - i := by omega
      rw [harith2] at ih'
      cases hs : scrapeUrl w url <;> simp [hs, ih']

/-! ### Claims -/

/-- C3: for every page with no metadata script element, `scrape_article`
does not raise and returns the all-default record: every plain metadata
field is `none`, `keywords` is `[""]` (split of the default empty string),
`classes` is the default empty list and `html` the default empty string. -/
theorem no_metadata_script_yields_null_record (ps : List String) :
    scrape_article ⟨none, ps⟩ = some nullArticle := rfl

/-- C6: the `keywords` field is the comma-split of the metadata keyword
string: `"a,b,c"` yields `["a","b","c"]`, while an absent entry and an
empty-string entry both yield `[""]`. -/
theorem keywords_split_examples :
    scrape_article (pageOf (.cons "keywords" (.str "a,b,c") .nil)) =
      some { nullArticle with keywords := ["a", "b", "c"] } ∧
    scrape_article ⟨none, []⟩ = some { nullArticle with keywords := [""] } ∧
    scrape_article (pageOf (.cons "keywords" (.str "") .nil)) =
      some { nullArticle with keywords := [""] } :=
  ⟨rfl, rfl, rfl⟩

/-- C10: there is a page with well-formed metadata JSON whose `keywords`
value is a JSON array, on which `scrape_article` raises (modelled by
`none`) instead of returning a record: `'list' object has no attribute
'split'`. -/
theorem keywords_nonstring_raises :
    scrape_article (pageOf (.cons "keywords" (.arr (.cons (.str "x") .nil)) .nil)) =
      none := rfl

/-- C2 counterexample: the claim "`scrape_article` returns a record without
raising for every well-formed JSON metadata mapping" fails on the concrete
page whose metadata is `{"keywords": null}`: record construction raises
(`None.split` is an `AttributeError`), modelled by `none`. -/
theorem extract_raises_on_null_keywords :
    scrape_article (pageOf (.cons "keywords" Json.null .nil)) = none := rfl

/-- C2 amended: `scrape_article` never raises for missing-field conditions;
on any already fetched page whose metadata `keywords` entry is absent or a
string, it returns a record.  (Fetch failures live outside `Page`; the one
remaining raise is the non-string-`keywords` case of C10.) -/
theorem scrape_article_total_unless_keywords_nonstring (p : Page) (kw : String)
    (h : (metadataOfScript p.script).getD "keywords" (Json.str "") = Json.str kw) :
    ∃ a, scrape_article p = some a := by
  simp only [scrape_article, h]
  exact ⟨_, rfl⟩

theorem scrape_article_total_unless_keywords_nonstring_witness :
    (metadataOfScript (none : Option (List Char))).getD "keywords" (Json.str "") =
      Json.str "" ∧
    ∃ a, scrape_article ⟨none, []⟩ = some a :=
  ⟨rfl, scrape_article_total_unless_keywords_nonstring ⟨none, []⟩ "" rfl⟩

/-- C4: a page whose metadata script has a brace span that fails to parse
as JSON yields exactly the record of a page with no metadata script at all,
without raising. -/
theorem malformed_json_degrades (s : List Char) (ps : List String) (span : List Char)
    (h1 : braceSpan s = some span) (h2 : jsonLoads span = none) :
    scrape_article ⟨some s, ps⟩ = scrape_article ⟨none, ps⟩ := by
  have hm : extract_metadata s = JObj.nil := by
    simp only [extract_metadata, h1, h2]
  simp only [scrape_article, metadataOfScript, hm]

theorem malformed_json_degrades_witness :
    braceSpan "\x7boops\x7d".data = some "\x7boops\x7d".data ∧
    jsonLoads "\x7boops\x7d".data = none ∧
    scrape_article ⟨some "\x7boops\x7d".data, ["p"]⟩ = scrape_article ⟨none, ["p"]⟩ :=
  ⟨rfl, rfl, malformed_json_degrades _ _ _ rfl rfl⟩

/-- C7: the record is independent of the page's paragraph elements (the
newline-joined paragraph text computed on line 63 is never stored), and its
`html` field is exactly the metadata mapping's own `html` entry with the
empty-string default. -/
theorem html_from_metadata_only (sc : Option (List Char)) (ps ps' : List String) :
    scrape_article ⟨sc, ps⟩ = scrape_article ⟨sc, ps'⟩ ∧
    ∀ a, scrape_article ⟨sc, ps⟩ = some a →
      a.html = (metadataOfScript sc).getD "html" (Json.str "") := by
  constructor
  · rfl
  · intro a h
    simp only [scrape_article] at h
    split at h
    · cases Option.some.inj h
      rfl
    · exact absurd h (by simp)

theorem html_from_metadata_only_witness :
    scrape_article ⟨none, ["body text"]⟩ = scrape_article ⟨none, []⟩ ∧
    nullArticle.html = (metadataOfScript none).getD "html" (Json.str "") :=
  ⟨(html_from_metadata_only none ["body text"] []).1,
   (html_from_metadata_only none ["body text"] []).2 nullArticle rfl⟩

/-- C9: the driver reads `(year, month)` off the sitemap URL with the fixed
pattern: `.../sitemap-2023-7.xml` yields `("2023", "7")`; and a sitemap URL
the pattern does not match is skipped silently — `driverMonth` produces
nothing for it (no article fetch, no records, no output file). -/
theorem sitemap_year_month_pattern :
    matchSitemap "https://www.almayadeen.net/sitemaps/sitemap-2023-7.xml".data =
      some ("2023", "7") ∧
    ∀ (w : Web) (u : String), matchSitemap u.data = none → driverMonth w u = none := by
  refine ⟨rfl, fun w u h => ?_⟩
  simp only [driverMonth, h]

theorem sitemap_year_month_pattern_witness :
    matchSitemap "https://www.almayadeen.net/sitemaps/all.xml".data = none ∧
    driverMonth trivialWeb "https://www.almayadeen.net/sitemaps/all.xml" = none :=
  ⟨rfl, sitemap_year_month_pattern.2 trivialWeb _ rfl⟩

/-- C5: for a monthly sitemap whose URL matches the pattern, the driver
attempts only the first 11 listed URLs, omits the ones whose extraction
raises, and writes exactly the successfully extracted records in sitemap
order: the month's file content is `filterMap` of scraping over the listed
URLs' 11-prefix. -/
theorem month_output_is_capped_filterMap (w : Web) (u y m : String)
    (h : matchSitemap u.data = some (y, m)) :
    driverMonth w u =
      some (articlesFilename y m, ((w.articleUrls u).take 11).filterMap (scrapeUrl w)) := by
  simp only [driverMonth, h]
  rw [processMonth_eq w _ 0 (by omega)]

theorem month_output_is_capped_filterMap_witness :
    matchSitemap "https://x/sitemap-2023-7.xml".data = some ("2023", "7") ∧
    driverMonth scenarioWeb "https://x/sitemap-2023-7.xml" =
      some ("articles_2023_7.json",
        [postArticle "u0", postArticle "u1", postArticle "u2", postArticle "u3",
         postArticle "u4", postArticle "u6", postArticle "u7", postArticle "u8",
         postArticle "u10"]) := by
  refine ⟨rfl, ?_⟩
  rw [month_output_is_capped_filterMap scenarioWeb "https://x/sitemap-2023-7.xml" "2023" "7" rfl]
  rfl

/-! ### Character-level facts -/

theorem char_ne_of_toNat_ne {c d : Char} (h : c.toNat ≠ d.toNat) : c ≠ d :=
  fun e => h (congrArg Char.toNat e)

theorem isDig_toNat {c : Char} (h : isDig c = true) : 48 ≤ c.toNat ∧ c.toNat ≤ 57 := by
  simpa [isDig, Bool.and_eq_true, decide_eq_true_eq] using h

theorem ne_char_of_isDig {c : Char} (h : isDig c = true) (d : Char)
    (hd : d.toNat < 48 ∨ 57 < d.toNat) : c ≠ d := by
  obtain ⟨h1, h2⟩ := isDig_toNat h
  exact char_ne_of_toNat_ne (by omega)

theorem isWs_of_isDig {c : Char} (h : isDig c = true) : isWs c = false := by
  obtain ⟨h1, h2⟩ := isDig_toNat h
  simp only [isWs, Bool.or_eq_false_iff, decide_eq_false_iff_not]
  refine ⟨⟨⟨?_, ?_⟩, ?_⟩, ?_⟩ <;> exact char_ne_of_toNat_ne (by simp_arith; omega)

theorem skipWs_cons_of_not_ws {c : Char} (l : List Char) (h : isWs c = false) :
    skipWs (c :: l) = c :: l := by
  simp [skipWs, List.dropWhile_cons, h]

theorem hexVal_hexDigit : ∀ n, n < 16 → hexVal? (hexDigit n) = some n := by decide

theorem digitChar_toNat : ∀ n, n < 10 → (digitChar n).toNat = 48 + n := by decide

theorem digitChar_isDig : ∀ n, n < 10 → isDig (digitChar n) = true := by decide

theorem digitChar_ne_zero : ∀ n, n < 10 → n ≠ 0 → digitChar n ≠ '0' := by decide

theorem string_mk_data (s : String) : String.mk s.data = s := by
  obtain ⟨d⟩ := s
  rfl

/-! ### String-literal round trip -/

theorem parseStrAux_escChar (c : Char) (tail acc : List Char) :
    parseStrAux (escChar c ++ tail) acc = parseStrAux tail (c :: acc) := by
  by_cases h1 : c = '"'
  · subst h1
    rw [show escChar '"' ++ tail = '\\' :: '"' :: tail from rfl, parseStrAux.eq_def]
    simp
  · by_cases h2 : c = '\\'
    · subst h2
      rw [show escChar '\\' ++ tail = '\\' :: '\\' :: tail from rfl, parseStrAux.eq_def]
      simp
    · by_cases h3 : c.toNat < 32
      · have hdiv : c.toNat / 16 < 16 := by omega
        have hmod : c.toNat % 16 < 16 := by omega
        have hesc : escChar c ++ tail =
            '\\' :: 'u' :: '0' :: '0' :: hexDigit (c.toNat / 16) ::
              hexDigit (c.toNat % 16) :: tail := by
          simp [escChar, if_neg h1, if_neg h2, if_pos h3]
        rw [hesc, parseStrAux.eq_def]
        simp only [reduceIte]
        simp only [show hexVal? '0' = some 0 from rfl, hexVal_hexDigit _ hdiv,
          hexVal_hexDigit _ hmod]
        rw [if_pos (Or.inl (by omega))]
        rw [if_neg (show ¬('\\' : Char) = '"' by decide)]
        rw [if_neg (show ¬('u' : Char) = '"' by decide)]
        have hn : ((0 * 16 + 0) * 16 + c.toNat / 16) * 16 + c.toNat % 16 = c.toNat := by
          omega
        rw [hn, Char.ofNat_toNat]
        simp
      · have hesc : escChar c ++ tail = c :: tail := by
          simp [escChar, if_neg h1, if_neg h2, if_neg h3]
        rw [hesc, parseStrAux.eq_def]
        simp only []
        rw [if_neg h1, if_neg h2, if_neg h3]

theorem parseStrAux_escStr :
    ∀ (cs acc rest : List Char),
      parseStrAux (escStr cs ++ '"' :: rest) acc =
        some (String.mk (acc.reverse ++ cs), rest) := by
  intro cs
  induction cs with
  | nil =>
    intro acc rest
    rw [show escStr [] ++ '"' :: rest = '"' :: rest from rfl, parseStrAux.eq_def]
    simp
  | cons c cs ih =>
    intro acc rest
    rw [show escStr (c :: cs) = escChar c ++ escStr cs from rfl, List.append_assoc,
      parseStrAux_escChar, ih]
    simp

theorem parseStrAux_renderStr (s : String) (rest : List Char) :
    parseStrAux (escStr s.data ++ '"' :: rest) [] = some (s, rest) := by
  rw [parseStrAux_escStr]
  simp [string_mk_data]

/-! ### Number-literal round trip -/

theorem renderNatAux_fuel : ∀ (n f g : Nat), n < f → n < g → renderNatAux f n = renderNatAux g n := by
  intro n
  induction n using Nat.strong_induction_on with
  | _ n ih =>
    intro f g hf hg
    obtain ⟨f', rfl⟩ : ∃ f', f = f' + 1 := ⟨f - 1, by omega⟩
    obtain ⟨g', rfl⟩ : ∃ g', g = g' + 1 := ⟨g - 1, by omega⟩
    simp only [renderNatAux]
    by_cases h : n < 10
    · simp [h]
    · simp only [if_neg h]
      rw [ih (n / 10) (by omega) f' g' (by omega) (by omega)]

theorem renderNat_eq (n : Nat) :
    renderNat n =
      if n < 10 then [digitChar n] else renderNat (n / 10) ++ [digitChar (n % 10)] := by
  show renderNatAux (n + 1) n = _
  simp only [renderNatAux]
  by_cases h : n < 10
  · simp [h, renderNat]
  · simp only [if_neg h, renderNat]
    rw [renderNatAux_fuel (n / 10) n (n / 10 + 1) (by omega) (by omega)]

theorem renderNat_all_isDig : ∀ n, (renderNat n).all isDig = true := by
  intro n
  induction n using Nat.strong_induction_on with
  | _ n ih =>
    rw [renderNat_eq]
    by_cases h : n < 10
    · simp [h, digitChar_isDig n h]
    · simp only [if_neg h, List.all_append, Bool.and_eq_true]
      exact ⟨ih (n / 10) (by omega), by simp [digitChar_isDig (n % 10) (by omega)]⟩

theorem renderNat_ne_nil (n : Nat) : renderNat n ≠ [] := by
  rw [renderNat_eq]
  by_cases h : n < 10
  · simp [h]
  · simp [h]

theorem renderNat_head_ne_zero : ∀ n, n ≠ 0 → ∀ d ds, renderNat n = d :: ds → d ≠ '0' := by
  intro n
  induction n using Nat.strong_induction_on with
  | _ n ih =>
    intro hn d ds hr
    rw [renderNat_eq] at hr
    by_cases h : n < 10
    · rw [if_pos h] at hr
      cases hr
      exact digitChar_ne_zero n h hn
    · rw [if_neg h] at hr
      obtain ⟨e, es, he⟩ : ∃ e es, renderNat (n / 10) = e :: es := by
        cases hq : renderNat (n / 10) with
        | nil => exact absurd hq (renderNat_ne_nil _)
        | cons e es => exact ⟨e, es, rfl⟩
      rw [he, List.cons_append] at hr
      cases hr
      exact ih (n / 10) (by omega) (by omega) d es he

theorem digitsVal_append (a b : List Char) :
    ∀ acc, digitsVal (a ++ b) acc = digitsVal b (digitsVal a acc) := by
  induction a with
  | nil => intro acc; simp [digitsVal]
  | cons c r ih => intro acc; simp only [List.cons_append, digitsVal]; exact ih _

theorem digitsVal_renderNat : ∀ n acc, digitsVal (renderNat n) acc = acc * 10 ^ (renderNat n).length + n := by
  intro n
  induction n using Nat.strong_induction_on with
  | _ n ih =>
    intro acc
    conv_lhs => rw [renderNat_eq]
    by_cases h : n < 10
    · rw [if_pos h]
      simp only [digitsVal, digitChar_toNat n h]
      rw [renderNat_eq, if_pos h]
      simp only [List.length_cons, List.length_nil, zero_add, pow_one]
      omega
    · rw [if_neg h]
      rw [digitsVal_append, ih (n / 10) (by omega) acc]
      simp only [digitsVal, digitChar_toNat (n % 10) (by omega)]
      conv_rhs => rw [renderNat_eq, if_neg h]
      simp only [List.length_append, List.length_cons, List.length_nil]
      have hq : n = 10 * (n / 10) + n % 10 := by omega
      set k := (renderNat (n / 10)).length
      set q := n / 10
      set r := n % 10
      rw [show 48 + r - 48 = r from by omega]
      calc (acc * 10 ^ k + q) * 10 + r = acc * (10 ^ k * 10) + (10 * q + r) := by ring
        _ = acc * 10 ^ (k + (0 + 1)) + n := by rw [pow_succ] at *; omega

theorem not_dig_of_stop {rest : List Char} (h : numStop rest.head? = true) :
    ∀ d, rest.head? = some d → isDig d = false := by
  intro d hd
  rw [hd] at h
  simp only [numStop, Bool.or_eq_true, decide_eq_true_eq] at h
  rcases h with (h | h) | h <;> subst h <;> decide

theorem isFloatCont_of_stop {rest : List Char} (h : numStop rest.head? = true) :
    isFloatCont rest = false := by
  cases rest with
  | nil => rfl
  | cons c r =>
    simp only [List.head?_cons, numStop, Bool.or_eq_true, decide_eq_true_eq] at h
    rcases h with (h | h) | h <;> subst h <;> rw [isFloatCont.eq_def] <;> simp

theorem takeDigits_append : ∀ (ds rest : List Char), ds.all isDig = true →
    (∀ d, rest.head? = some d → isDig d = false) →
    takeDigits (ds ++ rest) = (ds, rest) := by
  intro ds
  induction ds with
  | nil =>
    intro rest _ h2
    cases rest with
    | nil => rfl
    | cons c r =>
      rw [List.nil_append, takeDigits.eq_def]
      simp only []
      rw [if_neg (by simp [h2 c rfl])]
  | cons c ds ih =>
    intro rest h1 h2
    simp only [List.all_cons, Bool.and_eq_true] at h1
    rw [List.cons_append, takeDigits.eq_def]
    simp only []
    rw [if_pos h1.1, ih rest h1.2 h2]

theorem parseIntPart_renderNat (n : Nat) (rest : List Char)
    (hrest : ∀ d, rest.head? = some d → isDig d = false) :
    parseIntPart (renderNat n ++ rest) = some (renderNat n, rest) := by
  by_cases h0 : n = 0
  · subst h0
    rw [show renderNat 0 = ['0'] from rfl, List.cons_append, List.nil_append,
      parseIntPart.eq_def]
    simp only []
    simp only [if_true]
  · obtain ⟨d, ds, hd⟩ : ∃ d ds, renderNat n = d :: ds := by
      cases hq : renderNat n with
      | nil => exact absurd hq (renderNat_ne_nil _)
      | cons d ds => exact ⟨d, ds, rfl⟩
    have hall := renderNat_all_isDig n
    rw [hd, List.all_cons, Bool.and_eq_true] at hall
    have hdz : d ≠ '0' := renderNat_head_ne_zero n h0 d ds hd
    rw [hd, List.cons_append, parseIntPart.eq_def]
    simp only []
    rw [if_neg hdz, if_pos hall.1, takeDigits_append ds rest hall.2 hrest]

theorem parseNum_renderInt (n : Int) (rest : List Char) (h : numStop rest.head? = true) :
    parseNum (renderInt n ++ rest) = some (Json.num n, rest) := by
  have hrest := not_dig_of_stop h
  have hfc := isFloatCont_of_stop h
  by_cases hneg : n < 0
  · rw [show renderInt n = '-' :: renderNat n.natAbs from by simp [renderInt, hneg],
      List.cons_append, parseNum.eq_def]
    simp only []
    rw [if_true, parseIntPart_renderNat n.natAbs rest hrest]
    simp only []
    rw [if_neg (by simp [hfc]), digitsVal_renderNat]
    simp only [Nat.zero_mul, Nat.zero_add]
    have hv : -((n.natAbs : Nat) : Int) = n := by omega
    rw [hv]
  · have hr : renderInt n = renderNat n.toNat := by simp [renderInt, hneg]
    obtain ⟨d, ds, hd⟩ : ∃ d ds, renderNat n.toNat = d :: ds := by
      cases hq : renderNat n.toNat with
      | nil => exact absurd hq (renderNat_ne_nil _)
      | cons d ds => exact ⟨d, ds, rfl⟩
    have hall := renderNat_all_isDig n.toNat
    rw [hd, List.all_cons, Bool.and_eq_true] at hall
    have hdm : d ≠ '-' := ne_char_of_isDig hall.1 '-' (by decide)
    rw [hr, hd, List.cons_append, parseNum.eq_def]
    simp only []
    rw [if_neg hdm, ← List.cons_append, ← hd, parseIntPart_renderNat n.toNat rest hrest]
    simp only []
    rw [if_neg (by simp [hfc]), digitsVal_renderNat]
    simp only [Nat.zero_mul, Nat.zero_add]
    have hv : ((n.toNat : Nat) : Int) = n := by omega
    rw [hv]

/-! ### Dict lemmas -/

theorem JObj.append_assoc : ∀ (a b c : JObj),
    (a.append b).append c = a.append (b.append c)
  | .nil, _, _ => rfl
  | .cons k v t, b, c => by simp only [JObj.append, JObj.append_assoc t b c]

theorem JObj.keys_append : ∀ (a b : JObj), (a.append b).keys = a.keys ++ b.keys
  | .nil, _ => rfl
  | .cons k v t, b => by
    simp only [JObj.append, JObj.keys, JObj.keys_append t b, List.cons_append]

theorem JObj.insert_of_not_mem : ∀ (m : JObj) (k : String) (v : Json), k ∉ m.keys →
    m.insert k v = m.append (.cons k v .nil)
  | .nil, _, _, _ => rfl
  | .cons k' v' t, k, v, h => by
    simp only [JObj.keys, List.mem_cons, not_or] at h
    simp only [JObj.insert, JObj.append]
    rw [if_neg (fun e => h.1 e.symm), JObj.insert_of_not_mem t k v h.2]

/-! ### Heads of serialized values -/

theorem renderNat_length_pos (n : Nat) : 1 ≤ (renderNat n).length := by
  cases hq : renderNat n with
  | nil => exact absurd hq (renderNat_ne_nil n)
  | cons d ds => simp [hq]

theorem renderV_head (j : Json) :
    ∃ c tl, renderV j = c :: tl ∧ c ≠ ']' ∧ c ≠ '}' ∧ isWs c = false := by
  cases j with
  | num n =>
    by_cases h : n < 0
    · refine ⟨'-', renderNat n.natAbs, by simp [renderV, renderInt, h], ?_, ?_, ?_⟩ <;> decide
    · obtain ⟨d, ds, hd⟩ : ∃ d ds, renderNat n.toNat = d :: ds := by
        cases hq : renderNat n.toNat with
        | nil => exact absurd hq (renderNat_ne_nil _)
        | cons d ds => exact ⟨d, ds, rfl⟩
      have hall := renderNat_all_isDig n.toNat
      rw [hd, List.all_cons, Bool.and_eq_true] at hall
      refine ⟨d, ds, by simp [renderV, renderInt, h, hd],
        ne_char_of_isDig hall.1 ']' (by decide), ne_char_of_isDig hall.1 '}' (by decide),
        isWs_of_isDig hall.1⟩
  | bool b =>
    cases b
    · refine ⟨'f', _, rfl, ?_, ?_, ?_⟩ <;> decide
    · refine ⟨'t', _, rfl, ?_, ?_, ?_⟩ <;> decide
  | null => refine ⟨'n', _, rfl, ?_, ?_, ?_⟩ <;> decide
  | str s => refine ⟨'"', _, rfl, ?_, ?_, ?_⟩ <;> decide
  | arr xs => refine ⟨'[', _, rfl, ?_, ?_, ?_⟩ <;> decide
  | obj m => refine ⟨'{', _, rfl, ?_, ?_, ?_⟩ <;> decide

theorem renderA_head (v : Json) (t : JArr) :
    ∃ c tl, renderA (.cons v t) = c :: tl ∧ c ≠ ']' ∧ c ≠ '}' ∧ isWs c = false := by
  obtain ⟨c, tl, h, h1, h2, hw⟩ := renderV_head v
  cases t with
  | nil => exact ⟨c, tl, by simp [renderA, h], h1, h2, hw⟩
  | cons w t2 =>
    exact ⟨c, tl ++ ',' :: renderA (.cons w t2), by simp [renderA, h], h1, h2, hw⟩

/-! ### The fuel bound -/

mutual
theorem jsizeV_le : ∀ j : Json, jsizeV j ≤ 4 * (renderV j).length
  | .null => by simp [jsizeV, renderV]
  | .bool b => by cases b <;> simp [jsizeV, renderV]
  | .num n => by
    have h1 := renderNat_length_pos n.natAbs
    have h2 := renderNat_length_pos n.toNat
    by_cases h : n < 0 <;> simp [jsizeV, renderV, renderInt, h] <;> omega
  | .str s => by simp [jsizeV, renderV, renderStr]; omega
  | .arr xs => by
    have h := jsizeA_le xs
    rw [show jsizeV (.arr xs) = 3 + jsizeA xs from rfl,
      show renderV (.arr xs) = '[' :: renderA xs ++ [']'] from rfl]
    simp only [List.length_cons, List.length_append, List.length_nil]
    omega
  | .obj m => by
    have h := jsizeO_le m
    rw [show jsizeV (.obj m) = 3 + jsizeO m from rfl,
      show renderV (.obj m) = '{' :: renderO m ++ ['}'] from rfl]
    simp only [List.length_cons, List.length_append, List.length_nil]
    omega
theorem jsizeA_le : ∀ xs : JArr, jsizeA xs ≤ 4 * (renderA xs).length + 4
  | .nil => by simp [jsizeA]
  | .cons v .nil => by
    have h := jsizeV_le v
    rw [show jsizeA (.cons v .nil) = 1 + jsizeV v + 0 from rfl,
      show renderA (.cons v .nil) = renderV v from rfl]
    omega
  | .cons v (.cons w t) => by
    have h1 := jsizeV_le v
    have h2 := jsizeA_le (JArr.cons w t)
    rw [show jsizeA (.cons v (.cons w t)) = 1 + jsizeV v + jsizeA (JArr.cons w t) from rfl,
      show renderA (.cons v (.cons w t)) = renderV v ++ ',' :: renderA (JArr.cons w t) from rfl]
    simp only [List.length_append, List.length_cons]
    omega
theorem jsizeO_le : ∀ m : JObj, jsizeO m ≤ 4 * (renderO m).length + 4
  | .nil => by simp [jsizeO]
  | .cons k v .nil => by
    have h := jsizeV_le v
    rw [show jsizeO (.cons k v .nil) = 1 + jsizeV v + 0 from rfl,
      show renderO (.cons k v .nil) = renderStr k ++ ':' :: renderV v from rfl]
    simp only [List.length_append, List.length_cons]
    omega
  | .cons k v (.cons k2 v2 t) => by
    have h1 := jsizeV_le v
    have h2 := jsizeO_le (JObj.cons k2 v2 t)
    rw [show jsizeO (.cons k v (.cons k2 v2 t)) =
        1 + jsizeV v + jsizeO (JObj.cons k2 v2 t) from rfl,
      show renderO (.cons k v (.cons k2 v2 t)) =
        renderStr k ++ ':' :: renderV v ++ ',' :: renderO (JObj.cons k2 v2 t) from rfl]
    simp only [List.length_append, List.length_cons]
    omega
end

/-! ### Parser dispatch lemmas -/

theorem parseVal_succ (f : Nat) (cs : List Char) :
    parseVal (f + 1) cs = parseValCore f (skipWs cs) := by
  simp only [parseVal]

theorem parseValCore_n (f : Nat) (r : List Char) :
    parseValCore (f + 1) ('n' :: r) = parseNullLit r := by
  simp [parseValCore]

theorem parseValCore_t (f : Nat) (r : List Char) :
    parseValCore (f + 1) ('t' :: r) = parseTrueLit r := by
  simp [parseValCore]

theorem parseValCore_f (f : Nat) (r : List Char) :
    parseValCore (f + 1) ('f' :: r) = parseFalseLit r := by
  simp [parseValCore]

theorem parseValCore_q (f : Nat) (r : List Char) :
    parseValCore (f + 1) ('"' :: r) = parseStrRes r := by
  simp [parseValCore]

theorem parseValCore_lb (f : Nat) (r : List Char) :
    parseValCore (f + 1) ('[' :: r) = parseArrBody f (skipWs r) := by
  simp [parseValCore]

theorem parseValCore_lbr (f : Nat) (r : List Char) :
    parseValCore (f + 1) ('{' :: r) = parseObjBody f (skipWs r) := by
  simp [parseValCore]

theorem parseValCore_other (f : Nat) (c : Char) (r : List Char)
    (h1 : c ≠ 'n') (h2 : c ≠ 't') (h3 : c ≠ 'f') (h4 : c ≠ '"') (h5 : c ≠ '[')
    (h6 : c ≠ '{') :
    parseValCore (f + 1) (c :: r) = parseNum (c :: r) := by
  simp only [parseValCore]
  rw [if_neg h1, if_neg h2, if_neg h3, if_neg h4, if_neg h5, if_neg h6]

theorem parseArrBody_close (f : Nat) (r : List Char) :
    parseArrBody (f + 1) (']' :: r) = some (.arr .nil, r) := by
  simp [parseArrBody]

theorem parseArrBody_cons (f : Nat) (d : Char) (r : List Char) (h : d ≠ ']') :
    parseArrBody (f + 1) (d :: r) =
      match parseArrItems f (d :: r) with
      | some (xs, r') => some (.arr xs, r')
      | none => none := by
  simp only [parseArrBody]
  rw [if_neg h]

theorem parseObjBody_close (f : Nat) (r : List Char) :
    parseObjBody (f + 1) ('}' :: r) = some (.obj .nil, r) := by
  simp [parseObjBody]

theorem parseObjBody_cons (f : Nat) (d : Char) (r : List Char) (h : d ≠ '}') :
    parseObjBody (f + 1) (d :: r) =
      match parseObjItems f JObj.nil (d :: r) with
      | some (m, r') => some (.obj m, r')
      | none => none := by
  simp only [parseObjBody]
  rw [if_neg h]

theorem renderInt_head (n : Int) :
    ∃ c tl, renderInt n = c :: tl ∧ isWs c = false ∧ c ≠ 'n' ∧ c ≠ 't' ∧ c ≠ 'f' ∧
      c ≠ '"' ∧ c ≠ '[' ∧ c ≠ '{' := by
  by_cases h : n < 0
  · exact ⟨'-', renderNat n.natAbs, by simp [renderInt, h], by decide, by decide,
      by decide, by decide, by decide, by decide, by decide⟩
  · obtain ⟨d, ds, hd⟩ : ∃ d ds, renderNat n.toNat = d :: ds := by
      cases hq : renderNat n.toNat with
      | nil => exact absurd hq (renderNat_ne_nil _)
      | cons d ds => exact ⟨d, ds, rfl⟩
    have hall := renderNat_all_isDig n.toNat
    rw [hd, List.all_cons, Bool.and_eq_true] at hall
    exact ⟨d, ds, by simp [renderInt, h, hd], isWs_of_isDig hall.1,
      ne_char_of_isDig hall.1 'n' (by decide), ne_char_of_isDig hall.1 't' (by decide),
      ne_char_of_isDig hall.1 'f' (by decide), ne_char_of_isDig hall.1 '"' (by decide),
      ne_char_of_isDig hall.1 '[' (by decide), ne_char_of_isDig hall.1 '{' (by decide)⟩

/-! ### Parse-of-render round trip -/

theorem not_mem_of_contains_eq_false {l : List String} {k : String}
    (h : l.contains k = false) : k ∉ l := by
  intro hm
  simp [List.contains, List.elem_eq_mem, hm] at h

mutual
theorem rtV : ∀ (j : Json) (fuel : Nat) (rest : List Char),
    wfV j = true → jsizeV j ≤ fuel → numStop rest.head? = true →
    parseVal fuel (renderV j ++ rest) = some (j, rest)
  | .null, fuel, rest => fun _ hs _ => by
    rw [show jsizeV .null = 2 from rfl] at hs
    obtain ⟨f, rfl⟩ : ∃ f, fuel = (f + 1) + 1 := ⟨fuel - 2, by omega⟩
    rw [show renderV .null ++ rest = 'n' :: 'u' :: 'l' :: 'l' :: rest from rfl,
      parseVal_succ, skipWs_cons_of_not_ws _ (by decide), parseValCore_n]
    simp [parseNullLit]
  | .bool true, fuel, rest => fun _ hs _ => by
    rw [show jsizeV (.bool true) = 2 from rfl] at hs
    obtain ⟨f, rfl⟩ : ∃ f, fuel = (f + 1) + 1 := ⟨fuel - 2, by omega⟩
    rw [show renderV (.bool true) ++ rest = 't' :: 'r' :: 'u' :: 'e' :: rest from rfl,
      parseVal_succ, skipWs_cons_of_not_ws _ (by decide), parseValCore_t]
    simp [parseTrueLit]
  | .bool false, fuel, rest => fun _ hs _ => by
    rw [show jsizeV (.bool false) = 2 from rfl] at hs
    obtain ⟨f, rfl⟩ : ∃ f, fuel = (f + 1) + 1 := ⟨fuel - 2, by omega⟩
    rw [show renderV (.bool false) ++ rest = 'f' :: 'a' :: 'l' :: 's' :: 'e' :: rest from rfl,
      parseVal_succ, skipWs_cons_of_not_ws _ (by decide), parseValCore_f]
    simp [parseFalseLit]
  | .num n, fuel, rest => fun _ hs hr => by
    rw [show jsizeV (.num n) = 2 from rfl] at hs
    obtain ⟨f, rfl⟩ : ∃ f, fuel = (f + 1) + 1 := ⟨fuel - 2, by omega⟩
    obtain ⟨c, tl, hrend, hws, h1, h2, h3, h4, h5, h6⟩ := renderInt_head n
    rw [show renderV (.num n) = renderInt n from rfl, hrend, List.cons_append,
      parseVal_succ, skipWs_cons_of_not_ws _ hws,
      parseValCore_other f c _ h1 h2 h3 h4 h5 h6,
      ← List.cons_append, ← hrend, parseNum_renderInt n rest hr]
  | .str s, fuel, rest => fun _ hs _ => by
    rw [show jsizeV (.str s) = 2 from rfl] at hs
    obtain ⟨f, rfl⟩ : ∃ f, fuel = (f + 1) + 1 := ⟨fuel - 2, by omega⟩
    rw [show renderV (.str s) ++ rest = '"' :: (escStr s.data ++ '"' :: rest) from by
        simp [renderV, renderStr],
      parseVal_succ, skipWs_cons_of_not_ws _ (by decide), parseValCore_q]
    simp only [parseStrRes, parseStrAux_renderStr s rest]
  | .arr .nil, fuel, rest => fun _ hs _ => by
    rw [show jsizeV (.arr .nil) = 3 from rfl] at hs
    obtain ⟨f, rfl⟩ : ∃ f, fuel = ((f + 1) + 1) + 1 := ⟨fuel - 3, by omega⟩
    rw [show renderV (.arr .nil) ++ rest = '[' :: ']' :: rest from rfl,
      parseVal_succ, skipWs_cons_of_not_ws _ (by decide), parseValCore_lb,
      skipWs_cons_of_not_ws _ (by decide), parseArrBody_close]
  | .arr (.cons v t), fuel, rest => fun hw hs hr => by
    rw [show wfV (.arr (.cons v t)) = wfA (.cons v t) from rfl] at hw
    rw [show jsizeV (.arr (.cons v t)) = 3 + jsizeA (.cons v t) from rfl] at hs
    obtain ⟨f, rfl⟩ : ∃ f, fuel = ((f + 1) + 1) + 1 := ⟨fuel - 3, by omega⟩
    obtain ⟨c, tl, hrend, hc1, _, hws⟩ := renderA_head v t
    rw [show renderV (.arr (.cons v t)) ++ rest =
        '[' :: (renderA (.cons v t) ++ ']' :: rest) from by
        simp [renderV, List.append_assoc],
      parseVal_succ, skipWs_cons_of_not_ws _ (by decide), parseValCore_lb,
      hrend, List.cons_append, skipWs_cons_of_not_ws _ hws,
      parseArrBody_cons _ _ _ hc1, ← List.cons_append, ← hrend,
      rtA v t f rest hw (by omega) hr]
  | .obj .nil, fuel, rest => fun _ hs _ => by
    rw [show jsizeV (.obj .nil) = 3 from rfl] at hs
    obtain ⟨f, rfl⟩ : ∃ f, fuel = ((f + 1) + 1) + 1 := ⟨fuel - 3, by omega⟩
    rw [show renderV (.obj .nil) ++ rest = '{' :: '}' :: rest from rfl,
      parseVal_succ, skipWs_cons_of_not_ws _ (by decide), parseValCore_lbr,
      skipWs_cons_of_not_ws _ (by decide), parseObjBody_close]
  | .obj (.cons k v t), fuel, rest => fun hw hs hr => by
    rw [show wfV (.obj (.cons k v t)) = wfO (.cons k v t) from rfl] at hw
    rw [show jsizeV (.obj (.cons k v t)) = 3 + jsizeO (.cons k v t) from rfl] at hs
    obtain ⟨f, rfl⟩ : ∃ f, fuel = ((f + 1) + 1) + 1 := ⟨fuel - 3, by omega⟩
    obtain ⟨tl2, htl2⟩ : ∃ tl2, renderO (.cons k v t) = '"' :: tl2 := by
      cases t <;> simp [renderO, renderStr]
    rw [show renderV (.obj (.cons k v t)) ++ rest =
        '{' :: (renderO (.cons k v t) ++ '}' :: rest) from by
        simp [renderV, List.append_assoc],
      parseVal_succ, skipWs_cons_of_not_ws _ (by decide), parseValCore_lbr,
      htl2, List.cons_append, skipWs_cons_of_not_ws _ (by decide),
      parseObjBody_cons _ _ _ (by decide), ← List.cons_append, ← htl2,
      rtO k v t f JObj.nil rest hw (by omega) hr (by simp [JObj.keys])]
    rfl
termination_by j _ _ => sizeOf j
theorem rtA : ∀ (v : Json) (t : JArr) (fuel : Nat) (rest : List Char),
    wfA (.cons v t) = true → jsizeA (.cons v t) ≤ fuel → numStop rest.head? = true →
    parseArrItems fuel (renderA (.cons v t) ++ ']' :: rest) = some (.cons v t, rest)
  | v, .nil, fuel, rest => fun hw hs hr => by
    rw [show wfA (.cons v .nil) = (wfV v && wfA .nil) from rfl, Bool.and_eq_true] at hw
    rw [show jsizeA (.cons v .nil) = 1 + jsizeV v + jsizeA .nil from rfl,
      show jsizeA .nil = 0 from rfl] at hs
    obtain ⟨f, rfl⟩ : ∃ f, fuel = f + 1 := ⟨fuel - 1, by omega⟩
    rw [show renderA (.cons v .nil) = renderV v from rfl]
    simp only [parseArrItems]
    rw [rtV v f (']' :: rest) hw.1 (by omega) (by rfl)]
    simp only [skipWs_cons_of_not_ws _ (show isWs ']' = false by decide)]
    simp
  | v, .cons w t2, fuel, rest => fun hw hs hr => by
    rw [show wfA (.cons v (.cons w t2)) = (wfV v && wfA (.cons w t2)) from rfl,
      Bool.and_eq_true] at hw
    rw [show jsizeA (.cons v (.cons w t2)) = 1 + jsizeV v + jsizeA (.cons w t2) from rfl] at hs
    obtain ⟨f, rfl⟩ : ∃ f, fuel = f + 1 := ⟨fuel - 1, by omega⟩
    rw [show renderA (.cons v (.cons w t2)) ++ ']' :: rest =
        renderV v ++ (',' :: (renderA (.cons w t2) ++ ']' :: rest)) from by
        simp [renderA, List.append_assoc]]
    simp only [parseArrItems]
    rw [rtV v f (',' :: (renderA (.cons w t2) ++ ']' :: rest)) hw.1 (by omega) (by rfl)]
    simp only [skipWs_cons_of_not_ws _ (show isWs ',' = false by decide)]
    rw [rtA w t2 f rest hw.2 (by omega) hr]
    simp
termination_by v t _ _ => sizeOf (JArr.cons v t)
theorem rtO : ∀ (k : String) (v : Json) (t : JObj) (fuel : Nat) (acc : JObj)
    (rest : List Char),
    wfO (.cons k v t) = true → jsizeO (.cons k v t) ≤ fuel → numStop rest.head? = true →
    (∀ k', k' ∈ (JObj.cons k v t).keys → k' ∉ acc.keys) →
    parseObjItems fuel acc (renderO (.cons k v t) ++ '}' :: rest) =
      some (acc.append (.cons k v t), rest)
  | k, v, .nil, fuel, acc, rest => fun hw hs hr hdis => by
    rw [show wfO (.cons k v .nil) = (!(JObj.keys .nil).contains k && (wfV v && wfO .nil))
        from by simp [wfO, Bool.and_assoc], Bool.and_eq_true, Bool.and_eq_true] at hw
    rw [show jsizeO (.cons k v .nil) = 1 + jsizeV v + jsizeO .nil from rfl,
      show jsizeO .nil = 0 from rfl] at hs
    obtain ⟨f, rfl⟩ : ∃ f, fuel = f + 1 := ⟨fuel - 1, by omega⟩
    rw [show renderO (.cons k v .nil) ++ '}' :: rest =
        '"' :: (escStr k.data ++ '"' :: (':' :: (renderV v ++ '}' :: rest))) from by
        simp [renderO, renderStr, List.append_assoc]]
    simp only [parseObjItems]
    rw [if_true, parseStrAux_renderStr k _]
    simp only [skipWs_cons_of_not_ws _ (show isWs ':' = false by decide)]
    rw [if_true, rtV v f ('}' :: rest) hw.2.1 (by omega) (by rfl)]
    simp only [skipWs_cons_of_not_ws _ (show isWs '}' = false by decide)]
    rw [if_true, JObj.insert_of_not_mem acc k v (hdis k (by simp [JObj.keys]))]
  | k, v, .cons k2 v2 t2, fuel, acc, rest => fun hw hs hr hdis => by
    rw [show wfO (.cons k v (.cons k2 v2 t2)) =
        (!(JObj.keys (.cons k2 v2 t2)).contains k && (wfV v && wfO (.cons k2 v2 t2)))
        from by simp [wfO, Bool.and_assoc], Bool.and_eq_true, Bool.and_eq_true] at hw
    rw [show jsizeO (.cons k v (.cons k2 v2 t2)) =
        1 + jsizeV v + jsizeO (.cons k2 v2 t2) from rfl] at hs
    obtain ⟨f, rfl⟩ : ∃ f, fuel = f + 1 := ⟨fuel - 1, by omega⟩
    obtain ⟨tl2, htl2⟩ : ∃ tl2, renderO (.cons k2 v2 t2) = '"' :: tl2 := by
      cases t2 <;> simp [renderO, renderStr]
    rw [show renderO (.cons k v (.cons k2 v2 t2)) ++ '}' :: rest =
        '"' :: (escStr k.data ++ '"' :: (':' :: (renderV v ++
          ',' :: (renderO (.cons k2 v2 t2) ++ '}' :: rest)))) from by
        simp [renderO, renderStr, List.append_assoc]]
    simp only [parseObjItems]
    rw [if_true, parseStrAux_renderStr k _]
    simp only [skipWs_cons_of_not_ws _ (show isWs ':' = false by decide)]
    rw [if_true, rtV v f (',' :: (renderO (.cons k2 v2 t2) ++ '}' :: rest))
      hw.2.1 (by omega) (by rfl)]
    simp only [skipWs_cons_of_not_ws _ (show isWs ',' = false by decide)]
    rw [if_neg (show (',' : Char) ≠ '}' by decide), if_true, htl2, List.cons_append,
      skipWs_cons_of_not_ws _ (show isWs '"' = false by decide), ← List.cons_append, ← htl2]
    have hknotin : k ∉ (JObj.cons k2 v2 t2).keys := by
      have h1 := hw.1
      simp only [Bool.not_eq_true'] at h1
      exact not_mem_of_contains_eq_false h1
    rw [JObj.insert_of_not_mem acc k v (hdis k (by simp [JObj.keys]))]
    rw [rtO k2 v2 t2 f (acc.append (.cons k v .nil)) rest hw.2.2 (by omega) hr ?hdis2]
    · rw [JObj.append_assoc]
      rfl
    case hdis2 =>
      intro k' hk'
      rw [JObj.keys_append]
      simp only [List.mem_append, not_or]
      refine ⟨hdis k' ?_, ?_⟩
      · simp [JObj.keys] at hk' ⊢
        tauto
      · simp only [JObj.keys, List.mem_cons, List.not_mem_nil, or_false]
        intro he
        exact hknotin (he ▸ hk')
termination_by k v t _ _ _ => sizeOf (JObj.cons k v t)
end

theorem jsonLoads_renderV (j : Json) (h : wfV j = true) : jsonLoads (renderV j) = some j := by
  have hsize : jsizeV j ≤ 4 * (renderV j).length + 4 := le_trans (jsizeV_le j) (by omega)
  have hrt := rtV j (4 * (renderV j).length + 4) [] h hsize (by rfl)
  rw [List.append_nil] at hrt
  simp only [jsonLoads, hrt]
  simp [skipWs]

theorem dropWhile_cons_of_neg {p : Char → Bool} {c : Char} (l : List Char)
    (h : p c = false) : List.dropWhile p (c :: l) = c :: l := by
  simp [List.dropWhile_cons, h]

theorem braceSpan_wrap (mid : List Char) :
    braceSpan ('{' :: mid ++ ['}']) = some ('{' :: mid ++ ['}']) := by
  simp only [List.cons_append]
  have h2 : ('{' :: (mid ++ ['}'])).reverse = '}' :: (mid.reverse ++ ['{']) := by simp
  simp only [braceSpan]
  rw [dropWhile_cons_of_neg _ (by decide), h2, dropWhile_cons_of_neg _ (by decide)]
  simp

theorem extract_metadata_renderV (M : JObj) (h : wfO M = true) :
    extract_metadata (renderV (Json.obj M)) = M := by
  have hshape : renderV (Json.obj M) = '{' :: renderO M ++ ['}'] := rfl
  simp only [extract_metadata]
  rw [hshape, braceSpan_wrap, ← hshape]
  show (match jsonLoads (renderV (Json.obj M)) with
        | some (Json.obj m) => m
        | _ => JObj.nil) = M
  rw [jsonLoads_renderV (Json.obj M) (by rw [show wfV (Json.obj M) = wfO M from rfl]; exact h)]

/-- C1: for every valid metadata mapping `M` (unique keys at each object
level, as any Python dict has, and a `keywords` entry that is absent or a
string so that record construction does not raise — see C10), scraping a
page whose metadata script embeds exactly `M` as JSON yields the record
whose fields are exactly `M`'s corresponding entries: the twelve plain
fields are `M`'s values (absent ↦ null), `keywords` is the comma-split of
`M`'s keyword string (defaulting to `""`), and `classes`/`html` take `M`'s
values with their declared defaults. -/
theorem metadata_roundtrip (M : JObj) (ps : List String) (kw : String)
    (hwf : wfO M = true)
    (hkw : M.getD "keywords" (Json.str "") = Json.str kw) :
    scrape_article ⟨some (renderV (Json.obj M)), ps⟩ =
      some { type := M.get "type", postid := M.get "postid", title := M.get "title",
             url := M.get "url", keywords := pySplitComma kw,
             thumbnail := M.get "thumbnail", video_duration := M.get "video_duration",
             word_count := M.get "word_count", lang := M.get "lang",
             published_time := M.get "published_time",
             last_updated := M.get "last_updated",
             description := M.get "description", author := M.get "author",
             classes := M.getD "classes" (Json.arr .nil),
             html := M.getD "html" (Json.str ""),
             lite_url := M.get "lite_url" } := by
  have hx : metadataOfScript (some (renderV (Json.obj M))) = M := by
    simp only [metadataOfScript, extract_metadata_renderV M hwf]
  simp only [scrape_article, hx, hkw]

theorem metadata_roundtrip_witness :
    wfO (JObj.cons "title" (.str "T") (.cons "keywords" (.str "a,b") .nil)) = true ∧
    (JObj.cons "title" (.str "T") (.cons "keywords" (.str "a,b") .nil)).getD
      "keywords" (Json.str "") = Json.str "a,b" ∧
    scrape_article ⟨some (renderV (.obj (JObj.cons "title" (.str "T")
        (.cons "keywords" (.str "a,b") .nil)))), []⟩ =
      some { nullArticle with title := some (.str "T"), keywords := ["a", "b"] } := by
  refine ⟨rfl, rfl, ?_⟩
  rw [metadata_roundtrip (JObj.cons "title" (.str "T") (.cons "keywords" (.str "a,b") .nil))
    [] "a,b" rfl rfl]
  rfl

/-! ### Characterizing the greedy brace match -/

theorem dropWhile_append_of_all {p : Char → Bool} :
    ∀ (l1 l2 : List Char), (∀ c ∈ l1, p c = true) →
      List.dropWhile p (l1 ++ l2) = List.dropWhile p l2 := by
  intro l1
  induction l1 with
  | nil => simp
  | cons a t ih =>
    intro l2 h
    rw [List.cons_append, List.dropWhile_cons, if_pos (h a (by simp))]
    exact ih l2 (fun c hc => h c (by simp [hc]))

theorem braceSpan_decomp (pre mid post : List Char) (h1 : '{' ∉ pre) (h2 : '}' ∉ post) :
    braceSpan (pre ++ '{' :: mid ++ '}' :: post) = some ('{' :: (mid ++ '}' :: [])) := by
  simp only [braceSpan, List.cons_append, List.append_assoc]
  rw [dropWhile_append_of_all pre _ (fun c hc => by
    simp only [decide_eq_true_eq]
    exact fun e => h1 (e ▸ hc))]
  rw [dropWhile_cons_of_neg _ (by decide)]
  have hrev : ('{' :: (mid ++ '}' :: post)).reverse =
      post.reverse ++ ('}' :: (mid.reverse ++ ['{'])) := by
    simp
  rw [hrev]
  rw [dropWhile_append_of_all post.reverse _ (fun c hc => by
    simp only [decide_eq_true_eq]
    exact fun e => h2 (e ▸ (List.mem_reverse.mp hc)))]
  rw [dropWhile_cons_of_neg _ (by decide)]
  simp

theorem braceSpan_eq_none_of_no_close (cs : List Char) (h : '}' ∉ cs) :
    braceSpan cs = none := by
  have hsub : ∀ c ∈ cs.dropWhile (fun c => decide (c ≠ '{')), (c = '}') = False := by
    intro c hc
    have hmem : c ∈ cs := (List.dropWhile_sublist _).mem hc
    simp only [eq_iff_iff, iff_false]
    exact fun e => h (e ▸ hmem)
  have hnil : (cs.dropWhile (fun c => decide (c ≠ '{'))).reverse.dropWhile
      (fun c => decide (c ≠ '}')) = [] := by
    rw [List.dropWhile_eq_nil_iff]
    intro c hc
    have := hsub c (List.mem_reverse.mp hc)
    simp only [decide_eq_true_eq]
    simp only [eq_iff_iff, iff_false] at this
    exact this
  simp only [braceSpan, hnil, List.reverse_nil]

theorem braceSpan_none (cs : List Char)
    (h : ∀ j, j < cs.length → ∀ i, i < j → ¬(cs.get? i = some '{' ∧ cs.get? j = some '}')) :
    braceSpan cs = none := by
  induction cs with
  | nil => rfl
  | cons c cs ih =>
    by_cases hc : c = '{'
    · subst hc
      refine braceSpan_eq_none_of_no_close _ ?_
      intro hmem
      simp only [List.mem_cons] at hmem
      rcases hmem with he | hmem
      · exact absurd he.symm (by decide)
      · obtain ⟨j, hj⟩ := List.mem_iff_get?.mp hmem
        have hjlt : j < cs.length := by
          have := List.get?_eq_some.mp hj
          exact this.1
        exact h (j + 1) (by simp; omega) 0 (by omega) ⟨rfl, by simpa using hj⟩
    · have hstep : braceSpan (c :: cs) = braceSpan cs := by
        simp only [braceSpan, List.dropWhile_cons]
        rw [if_pos (by simp [hc])]
      rw [hstep]
      refine ih ?_
      intro j hj i hi hpair
      exact h (j + 1) (by simp; omega) (i + 1) (by omega) ⟨by simpa using hpair.1,
        by simpa using hpair.2⟩

/-- C8: `extract_metadata` takes the greedy brace span — from the first
`'{'` (nothing in `pre` before it is `'{'`) to the last `'}'` (nothing in
`post` after it is `'}'`) — and `json.loads`-parses it: a successful parse
yields that object, a failed parse yields the empty mapping; and when the
text has no `'{'` followed by a later `'}'` (no span at all), the result is
the empty mapping. -/
theorem extract_metadata_greedy_span :
    (∀ (pre mid post : List Char) (m : JObj), '{' ∉ pre → '}' ∉ post →
      jsonLoads ('{' :: (mid ++ ['}'])) = some (Json.obj m) →
      extract_metadata (pre ++ '{' :: mid ++ '}' :: post) = m) ∧
    (∀ (pre mid post : List Char), '{' ∉ pre → '}' ∉ post →
      jsonLoads ('{' :: (mid ++ ['}'])) = none →
      extract_metadata (pre ++ '{' :: mid ++ '}' :: post) = JObj.nil) ∧
    (∀ cs : List Char,
      (∀ j, j < cs.length → ∀ i, i < j → ¬(cs.get? i = some '{' ∧ cs.get? j = some '}')) →
      extract_metadata cs = JObj.nil) := by
  refine ⟨?_, ?_, ?_⟩
  · intro pre mid post m h1 h2 hparse
    simp only [extract_metadata, braceSpan_decomp pre mid post h1 h2, hparse]
  · intro pre mid post h1 h2 hparse
    simp only [extract_metadata, braceSpan_decomp pre mid post h1 h2, hparse]
  · intro cs h
    simp only [extract_metadata, braceSpan_none cs h]

theorem extract_metadata_greedy_span_witness :
    jsonLoads ('{' :: ("\"k\":\"v\"".data ++ ['}'])) =
      some (Json.obj (.cons "k" (.str "v") .nil)) ∧
    extract_metadata ("ab".data ++ '{' :: "\"k\":\"v\"".data ++ '}' :: "cd".data) =
      JObj.cons "k" (.str "v") .nil ∧
    extract_metadata "no braces".data = JObj.nil := by
  refine ⟨rfl, ?_, ?_⟩
  · exact extract_metadata_greedy_span.1 "ab".data "\"k\":\"v\"".data "cd".data
      (JObj.cons "k" (.str "v") .nil) (by decide) (by decide) rfl
  · exact extract_metadata_greedy_span.2.2 "no braces".data (by decide)
